/-
Verification of the proof-of-stake kernel of kpgchain (src/pos.cpp).

The development shallowly embeds the functions of pos.cpp.  256-bit machine
integers (uint256 / arith_uint256) are modelled as Nat with explicit
reduction modulo 2^256 where the C++ arithmetic wraps; 32-bit unsigned
integers as Nat with reduction modulo 2^32 where the C++ arithmetic wraps.
The cryptographic hash function `Hash` (double SHA-256), the UTXO view,
the historical spent-coin lookup, the ancestor index, the active chain, the
stake-address index and script destination extraction are external
collaborators of pos.cpp; they are modelled as explicit function parameters
(fields of environment structures), so every theorem quantifies over them.
-/
import Mathlib

namespace KpgPos

/-! ## Bytes and serialization

`CDataStream` serialization of fixed-width little-endian integers:
a uint256 serializes to 32 bytes, a uint32 to 4 bytes. -/

/-- Little-endian byte encoding with a fixed number of bytes. -/
def toBytesLE : Nat → Nat → List Nat
  | 0, _ => []
  | n + 1, x => x % 256 :: toBytesLE n (x / 256)

/-- Serialization of a uint256 value (32 bytes, little-endian). -/
def serU256 (x : Nat) : List Nat := toBytesLE 32 x

/-- Serialization of a uint32 value (4 bytes, little-endian). -/
def serU32 (x : Nat) : List Nat := toBytesLE 4 x

/-! ## Core data types of pos.cpp -/

/-- A script is a sequence of bytes (`CScript`). -/
abbrev CScript := List Nat

/-- `COutPoint`: reference to a transaction output by (tx hash, output index). -/
structure COutPoint where
  hash : Nat
  n : Nat
deriving DecidableEq, BEq, Repr

/-- The fields of `CBlockIndex` that pos.cpp reads. -/
structure CBlockIndex where
  nHeight : Int
  nTime : Nat
  nStakeModifier : Nat
deriving DecidableEq, Repr

/-- A coin as returned by the UTXO view: value, owning script, confirmation
height and spent flag (`Coin` with `out.nValue`, `out.scriptPubKey`,
`nHeight`, `IsSpent()`). -/
structure Coin where
  nValue : Nat
  scriptPubKey : CScript
  nHeight : Int
  spent : Bool
deriving DecidableEq, Repr

/-- `CStakeCache`: cached (origin block time, output value) pair. -/
structure CStakeCache where
  blockFromTime : Nat
  amount : Nat
deriving DecidableEq, Repr

/-- A transaction output (`CTxOut`). -/
structure CTxOut where
  nValue : Int
  scriptPubKey : CScript
deriving DecidableEq, Repr

/-! ## arith_uint256 compact decoding -/

/-- `arith_uint256::SetCompact`: decompress the compact difficulty encoding.
`nSize = nCompact >> 24`, `nWord = nCompact & 0x007fffff`; for `nSize ≤ 3`
the word is shifted right, otherwise shifted left inside 256-bit arithmetic
(the left shift truncates modulo 2^256). -/
def SetCompact (nCompact : Nat) : Nat :=
  let nSize := nCompact / 2 ^ 24
  let nWord := nCompact % 2 ^ 23
  if nSize ≤ 3 then
    nWord / 2 ^ (8 * (3 - nSize))
  else
    (nWord * 2 ^ (8 * (nSize - 3))) % 2 ^ 256

/-- The weighted target of CheckStakeKernelHash: the decompressed base target
multiplied by the stake value in 256-bit wrapping arithmetic
(`bnTarget.SetCompact(nBits); bnTarget *= bnWeight`). -/
def weightedTarget (nBits prevoutValue : Nat) : Nat :=
  (SetCompact nBits * prevoutValue) % 2 ^ 256

/-- The byte stream hashed by CheckStakeKernelHash:
`ss << nStakeModifier; ss << blockFromTime << prevout.hash << prevout.n << nTimeBlock`. -/
def kernelHashInput (nStakeModifier blockFromTime prevoutHash prevoutN nTimeBlock : Nat) :
    List Nat :=
  serU256 nStakeModifier ++ serU32 blockFromTime ++ serU256 prevoutHash ++
    serU32 prevoutN ++ serU32 nTimeBlock

/-! ## CheckStakeKernelHash

The C++ function takes `hashProofOfStake` and `targetProofOfStake` as output
reference parameters; we model them as an input pair (their values on entry)
and return the triple (result, hashProofOfStake, targetProofOfStake) holding
their values when the function returns. -/

/-- `CheckStakeKernelHash` from pos.cpp (logging omitted).  `hf` models the
cryptographic hash function `Hash`. -/
def CheckStakeKernelHash (hf : List Nat → Nat) (pindexPrev : CBlockIndex)
    (nBits blockFromTime prevoutValue : Nat) (prevout : COutPoint)
    (nTimeBlock hashProofIn targetIn : Nat) (isSuperStaker : Bool) :
    Bool × Nat × Nat :=
  if nTimeBlock < blockFromTime then
    -- "nTime violation": returns before assigning the output parameters
    (false, hashProofIn, targetIn)
  else
    let bnTarget := weightedTarget nBits prevoutValue
    let hashProofOfStake :=
      hf (kernelHashInput pindexPrev.nStakeModifier blockFromTime prevout.hash
            prevout.n nTimeBlock)
    if (isSuperStaker = false ∨ nTimeBlock < (pindexPrev.nTime + 64) % 2 ^ 32) ∧
        bnTarget < hashProofOfStake then
      (false, hashProofOfStake, bnTarget)
    else
      (true, hashProofOfStake, bnTarget)

/-! ## ComputeStakeModifier -/

/-- The byte stream hashed by ComputeStakeModifier:
`ss << kernel << pindexPrev->nStakeModifier`. -/
def stakeModifierInput (kernel prevStakeModifier : Nat) : List Nat :=
  serU256 kernel ++ serU256 prevStakeModifier

/-- `ComputeStakeModifier` from pos.cpp: zero for the genesis ancestor,
otherwise the hash of the kernel hash followed by the ancestor's modifier. -/
def ComputeStakeModifier (hf : List Nat → Nat) (pindexPrev : Option CBlockIndex)
    (kernel : Nat) : Nat :=
  match pindexPrev with
  | none => 0
  | some p => hf (stakeModifierInput kernel p.nStakeModifier)

/-! ## CheckKernel and the stake cache

`CheckKernel` has two overloads in pos.cpp: the one without a cache builds an
empty `std::map` and calls the cached one, and the cached one, on a cache
hit whose tentative kernel check passes, re-runs the cache-free path.  We
model the cache-free path as `CheckKernel` and the cached overload as
`CheckKernelWithCache`; `CheckKernelWithCache_nil` below proves that the
cached overload on the empty map coincides with `CheckKernel`, which is
exactly what the cache-free C++ overload computes. -/

/-- The environment of external collaborators used by CheckKernel:
the hash function, the UTXO view (`view.GetCoin`), the historical lookup
(`GetSpentCoinFromMainChain`), the ancestor index (`pindexPrev->GetAncestor`),
the super-staker allowlist and the maturity constant `COINBASE_MATURITY`. -/
structure PosEnv where
  hashFn : List Nat → Nat
  getCoin : COutPoint → Option Coin
  getSpentCoinFromMainChain : CBlockIndex → COutPoint → Option Coin
  getAncestor : CBlockIndex → Int → Option CBlockIndex
  superStakers : List CScript
  coinbaseMaturity : Int

/-- The super-staker test of pos.cpp:
`!superStakers.empty() && std::find(...) != superStakers.end()`. -/
def isSuperStakerScript (env : PosEnv) (s : CScript) : Bool :=
  !env.superStakers.isEmpty && env.superStakers.contains s

/-- The coin lookup at the top of CheckKernel: the live UTXO view first,
falling back to the historical spent-coin lookup on the main chain. -/
def lookupStakeCoin (env : PosEnv) (pindexPrev : CBlockIndex) (prevout : COutPoint) :
    Option Coin :=
  match env.getCoin prevout with
  | some c => some c
  | none => env.getSpentCoinFromMainChain pindexPrev prevout

/-- The cache-miss body of CheckKernel, after the coin has been resolved:
maturity check, ancestor lookup, spent check, then CheckStakeKernelHash
(with the two uint256 output locals default-initialized to zero). -/
def CheckKernelBody (env : PosEnv) (pindexPrev : CBlockIndex)
    (nBits nTimeBlock : Nat) (prevout : COutPoint) (coinPrev : Coin)
    (isSuperStaker : Bool) : Bool :=
  if isSuperStaker = false ∧
      pindexPrev.nHeight + 1 - coinPrev.nHeight < env.coinbaseMaturity then
    false
  else
    match env.getAncestor pindexPrev coinPrev.nHeight with
    | none => false
    | some blockFrom =>
      if coinPrev.spent then false
      else
        (CheckStakeKernelHash env.hashFn pindexPrev nBits blockFrom.nTime
          coinPrev.nValue prevout nTimeBlock 0 0 isSuperStaker).1

/-- The cache-free validation path of `CheckKernel`. -/
def CheckKernel (env : PosEnv) (pindexPrev : CBlockIndex)
    (nBits nTimeBlock : Nat) (prevout : COutPoint) : Bool :=
  match lookupStakeCoin env pindexPrev prevout with
  | none => false
  | some coinPrev =>
    CheckKernelBody env pindexPrev nBits nTimeBlock prevout coinPrev
      (isSuperStakerScript env coinPrev.scriptPubKey)

/-- The cached overload of `CheckKernel`.  On a cache hit, a passing
tentative check with the cached (time, value) pair is confirmed by re-running
the cache-free path. -/
def CheckKernelWithCache (env : PosEnv) (pindexPrev : CBlockIndex)
    (nBits nTimeBlock : Nat) (prevout : COutPoint)
    (cache : List (COutPoint × CStakeCache)) : Bool :=
  match lookupStakeCoin env pindexPrev prevout with
  | none => false
  | some coinPrev =>
    let isSuperStaker := isSuperStakerScript env coinPrev.scriptPubKey
    match cache.lookup prevout with
    | none =>
      CheckKernelBody env pindexPrev nBits nTimeBlock prevout coinPrev
        isSuperStaker
    | some stake =>
      if (CheckStakeKernelHash env.hashFn pindexPrev nBits stake.blockFromTime
            stake.amount prevout nTimeBlock 0 0 isSuperStaker).1 then
        CheckKernel env pindexPrev nBits nTimeBlock prevout
      else
        false

/-- The cache-free C++ overload passes an empty map to the cached overload;
on the empty cache the cached overload computes exactly `CheckKernel`. -/
theorem CheckKernelWithCache_nil (env : PosEnv) (pindexPrev : CBlockIndex)
    (nBits nTimeBlock : Nat) (prevout : COutPoint) :
    CheckKernelWithCache env pindexPrev nBits nTimeBlock prevout [] =
      CheckKernel env pindexPrev nBits nTimeBlock prevout := by
  unfold CheckKernelWithCache CheckKernel
  cases lookupStakeCoin env pindexPrev prevout <;> simp [List.lookup]

/-! ## CheckBlockInputPubKeyMatchesOutputPubKey

`ExtractDestination` (script standard matching) is an external collaborator;
it is modelled as a function returning the destination and the script type,
or `none` when extraction fails. -/

/-- Script types relevant to pos.cpp (`txnouttype`). -/
inductive TxnOutType where
  | TX_NONSTANDARD
  | TX_PUBKEY
  | TX_PUBKEYHASH
  | TX_SCRIPTHASH
  | TX_MULTISIG
  | TX_NULL_DATA
deriving DecidableEq, Repr

/-- `CTxDestination`: the boost variant of destinations; the key identity
is a 160-bit hash modelled as a Nat. -/
inductive CTxDestination where
  | CNoDestination
  | CKeyIDDest (k : Nat)
  | CScriptIDDest (s : Nat)
deriving DecidableEq, Repr

/-- Environment for the input/output pubkey match: the UTXO view and
`ExtractDestination`. -/
structure ScriptEnv where
  getCoin : COutPoint → Option Coin
  extractDestination : CScript → Option (CTxDestination × TxnOutType)

/-- The parts of a block read by CheckBlockInputPubKeyMatchesOutputPubKey:
the stake prevout and the output list of the coinstake transaction
(`block.vtx[1]->vout`). -/
structure BlockStakeView where
  prevoutStake : COutPoint
  coinstakeVout : List CTxOut

/-- `CheckBlockInputPubKeyMatchesOutputPubKey` from pos.cpp: the coinstake's
second output must either equal the kernel input's output script exactly, or
be the pay-to-pubkey form of the same key identity as the pay-to-pubkey-hash
input. -/
def CheckBlockInputPubKeyMatchesOutputPubKey (env : ScriptEnv)
    (block : BlockStakeView) : Bool :=
  match env.getCoin block.prevoutStake with
  | none => false
  | some coinIn =>
    match block.coinstakeVout with
    | _ :: txout :: _ =>
      if coinIn.scriptPubKey = txout.scriptPubKey then true
      else
        match env.extractDestination coinIn.scriptPubKey with
        | none => false
        | some (inputAddress, inputTxType) =>
          match inputTxType, inputAddress with
          | TxnOutType.TX_PUBKEYHASH, CTxDestination.CKeyIDDest kIn =>
            match env.extractDestination txout.scriptPubKey with
            | none => false
            | some (outputAddress, outputTxType) =>
              match outputTxType, outputAddress with
              | TxnOutType.TX_PUBKEY, CTxDestination.CKeyIDDest kOut =>
                decide (kIn = kOut)
              | _, _ => false
          | _, _ => false
    | _ => false

/-! ## The MPoS reward script cache and distributor -/

/-- A block of the active chain as read by the MPoS code: its hash
(`GetBlockHash`) and whether it is proof-of-stake. -/
structure ChainBlock where
  hash : Nat
  isProofOfStake : Bool
deriving DecidableEq, Repr

/-- `ScriptsElement`: a cached reward script together with the hash of the
block it was resolved from. -/
structure ScriptsElement where
  script : CScript
  hash : Nat
deriving DecidableEq, Repr

/-- The script cache `scriptsMap`, a map from height to cached element,
modelled as an association list. -/
abbrev ScriptsMap := List (Int × ScriptsElement)

/-- Environment of the MPoS code: the active chain (`chainActive[h]`), the
stake-address index (`pblocktree->ReadStakeIndex`), the regtest flag
(`Params().MineBlocksOnDemand()`) and the consensus parameters
`nMPoSRewardRecipients` and `COINBASE_MATURITY`. -/
structure MposEnv where
  chainActive : Int → Option ChainBlock
  readStakeIndex : Int → Option Nat
  mineBlocksOnDemand : Bool
  nMPoSRewardRecipients : Int
  coinbaseMaturity : Int

/-- The burn script `CScript() << OP_RETURN`. -/
def opReturnScript : CScript := [0x6a]

/-- A standard pay-to-pubkey-hash script built from a 160-bit address:
`OP_DUP OP_HASH160 <20 bytes> OP_EQUALVERIFY OP_CHECKSIG`. -/
def p2pkhScript (stakeAddress : Nat) : CScript :=
  [0x76, 0xa9, 0x14] ++ toBytesLE 20 stakeAddress ++ [0x88, 0xac]

/-- `NeedToEraseScriptFromCache` from pos.cpp: erase when the height is
outside `[nBlockHeight - nCacheScripts, nBlockHeight + nCacheScripts]`, or
when the active chain has a block at that height whose hash differs from the
cached hash. -/
def NeedToEraseScriptFromCache (chainActive : Int → Option ChainBlock)
    (nBlockHeight nCacheScripts nScriptHeight : Int)
    (scriptElement : ScriptsElement) : Bool :=
  if nScriptHeight < nBlockHeight - nCacheScripts ∨
      nScriptHeight > nBlockHeight + nCacheScripts then
    true
  else
    match chainActive nScriptHeight with
    | some pblockindex =>
      if pblockindex.hash ≠ scriptElement.hash then true else false
    | none => false

/-- `CleanScriptCache`: drop every entry the eviction rule selects.
`nCacheScripts = nMPoSRewardRecipients * 1.5` truncated to int. -/
def CleanScriptCache (env : MposEnv) (nHeight : Int) (st : ScriptsMap) :
    ScriptsMap :=
  let nCacheScripts := 3 * env.nMPoSRewardRecipients / 2
  st.filter fun p =>
    !NeedToEraseScriptFromCache env.chainActive nHeight nCacheScripts p.1 p.2

/-- `std::map::insert`: adds the binding only when the key is absent. -/
def mapInsert (st : ScriptsMap) (k : Int) (v : ScriptsElement) : ScriptsMap :=
  if (st.lookup k).isSome then st else (k, v) :: st

/-- `ReadFromScriptCache`: clean the cache, then return the script cached at
the height when its stored hash matches the block's hash.  Returns the
looked-up script and the cache state after cleaning. -/
def ReadFromScriptCache (env : MposEnv) (pblockindex : ChainBlock)
    (nHeight : Int) (st : ScriptsMap) : Option CScript × ScriptsMap :=
  let st1 := CleanScriptCache env nHeight st
  match st1.lookup nHeight with
  | some e =>
    (if e.hash = pblockindex.hash then some e.script else none, st1)
  | none => (none, st1)

/-- `AddToScriptCache`: clean the cache, then insert the resolved script
under the height with the block's hash. -/
def AddToScriptCache (env : MposEnv) (script : CScript)
    (pblockindex : ChainBlock) (nHeight : Int) (st : ScriptsMap) : ScriptsMap :=
  mapInsert (CleanScriptCache env nHeight st) nHeight
    { script := script, hash := pblockindex.hash }

/-- `AddMPoSScript` from pos.cpp: resolve the reward recipient script at a
height.  Returns the script appended to the recipient list (`none` on
failure) and the updated script cache. -/
def AddMPoSScript (env : MposEnv) (nHeight : Int) (st : ScriptsMap) :
    Option CScript × ScriptsMap :=
  match env.chainActive nHeight with
  | none => (none, st)
  | some pblockindex =>
    match ReadFromScriptCache env pblockindex nHeight st with
    | (some script, st1) => (some script, st1)
    | (none, st1) =>
      match env.readStakeIndex nHeight with
      | none => (none, st1)
      | some stakeAddress =>
        if pblockindex.isProofOfStake then
          let script :=
            if stakeAddress = 0 then opReturnScript else p2pkhScript stakeAddress
          (some script, AddToScriptCache env script pblockindex nHeight st1)
        else if env.mineBlocksOnDemand then
          (some opReturnScript, st1)
        else
          (none, st1)

/-- The loop of `GetMPoSOutputScripts`: `count` iterations at descending
heights `h, h-1, ...`, stopping at the first failure.  Returns the success
flag, the list of resolved scripts in resolution order (partial on failure)
and the final cache state. -/
def mposLoop (env : MposEnv) : Nat → Int → ScriptsMap →
    Bool × List CScript × ScriptsMap
  | 0, _, st => (true, [], st)
  | n + 1, h, st =>
    match AddMPoSScript env h st with
    | (none, st1) => (false, [], st1)
    | (some s, st1) =>
      let r := mposLoop env n (h - 1) st1
      (r.1, s :: r.2.1, r.2.2)

/-- `GetMPoSOutputScripts` from pos.cpp: resolve
`nMPoSRewardRecipients - 1` recipients starting at
`nHeight - COINBASE_MATURITY` and walking down. -/
def GetMPoSOutputScripts (env : MposEnv) (nHeight : Int) (st : ScriptsMap) :
    Bool × List CScript × ScriptsMap :=
  mposLoop env (env.nMPoSRewardRecipients - 1).toNat
    (nHeight - env.coinbaseMaturity) st

/-- `CreateMPoSOutputs` from pos.cpp: resolve the recipient list; on success
append one output per resolved script, each carrying `nRewardPiece`, to the
transaction's output list; on failure leave the output list untouched. -/
def CreateMPoSOutputs (env : MposEnv) (vout : List CTxOut)
    (nRewardPiece nHeight : Int) (st : ScriptsMap) :
    Bool × List CTxOut × ScriptsMap :=
  let r := GetMPoSOutputScripts env nHeight st
  if r.1 then
    (true,
     vout ++ r.2.1.map (fun s => { nValue := nRewardPiece, scriptPubKey := s }),
     r.2.2)
  else
    (false, vout, r.2.2)

/-! ## Concrete fixtures used to evaluate the definitions -/

/-- A hash collaborator that returns 0 on every input. -/
def hfConst0 : List Nat → Nat := fun _ => 0

/-- A hash collaborator that returns 1 on every input. -/
def hfConst1 : List Nat → Nat := fun _ => 1

/-- A hash collaborator that returns 5 on every input. -/
def hfConst5 : List Nat → Nat := fun _ => 5

/-- A hash collaborator that returns 42 on every input. -/
def hfConst42 : List Nat → Nat := fun _ => 42

/-- A concrete outpoint. -/
def poA : COutPoint := { hash := 0, n := 0 }

/-- A concrete previous block index with time 100. -/
def pidxA : CBlockIndex := { nHeight := 0, nTime := 100, nStakeModifier := 0 }

/-! ## Claims about CheckStakeKernelHash -/

/-- Claim C1, counterexample.  The claim states that a privileged staker
within 64 seconds of the ancestor's time is accepted unconditionally, and
that outside that condition acceptance requires `proofHash ≤ weightedTarget`.
The code has the window reversed: with `isSuperStaker = true` and
`nTimeBlock = 100 < (100 + 64) % 2^32` (and `blockFromTime = 50 ≤ 100`), the
proof hash 5 exceeds the weighted target 0 and the call is rejected; with
`nTimeBlock = 200 ≥ 164` the comparison is skipped and the call is accepted
even though the proof hash still exceeds the target. -/
theorem CheckStakeKernelHash_superstaker_window_cex :
    (100 : Nat) < (pidxA.nTime + 64) % 2 ^ 32 ∧ (50 : Nat) ≤ 100 ∧
    (CheckStakeKernelHash hfConst5 pidxA 0x01000000 50 1 poA 100 0 0 true).1 = false ∧
    weightedTarget 0x01000000 1 <
      hfConst5 (kernelHashInput pidxA.nStakeModifier 50 poA.hash poA.n 100) ∧
    (pidxA.nTime + 64) % 2 ^ 32 ≤ 200 ∧
    (CheckStakeKernelHash hfConst5 pidxA 0x01000000 50 1 poA 200 0 0 true).1 = true := by
  refine ⟨by decide, by decide, by decide, by decide, by decide, by decide⟩

/-- Claim C1 (amended): `CheckStakeKernelHash` accepts exactly when the
candidate time is not below the origin block time and either the caller is a
super staker whose candidate time is at least 64 seconds past the ancestor's
time (the hash/target comparison is then skipped), or the proof hash does
not exceed the weighted target. -/
theorem CheckStakeKernelHash_accept_iff (hf : List Nat → Nat)
    (pidx : CBlockIndex) (nBits bft v : Nat) (po : COutPoint)
    (ntb hIn tIn : Nat) (iss : Bool) :
    (CheckStakeKernelHash hf pidx nBits bft v po ntb hIn tIn iss).1 = true ↔
      (bft ≤ ntb ∧
        ((iss = true ∧ (pidx.nTime + 64) % 2 ^ 32 ≤ ntb) ∨
          hf (kernelHashInput pidx.nStakeModifier bft po.hash po.n ntb) ≤
            weightedTarget nBits v)) := by
  simp only [CheckStakeKernelHash]
  split_ifs with h1 h2
  · constructor
    · intro h; exact absurd h (by simp)
    · rintro ⟨hb, -⟩; exact absurd hb (by omega)
  · constructor
    · intro h; exact absurd h (by simp)
    · rintro ⟨hb, hor⟩
      obtain ⟨hguard, hlt⟩ := h2
      rcases hor with ⟨hiss, hge⟩ | hle
      · rcases hguard with hf' | hw
        · rw [hiss] at hf'; exact absurd hf' (by simp)
        · exact absurd hw (by omega)
      · exact absurd hle (by omega)
  · constructor
    · intro _
      refine ⟨by omega, ?_⟩
      rw [not_and_or] at h2
      rcases h2 with hng | hnl
      · rw [not_or] at hng
        obtain ⟨hnf, hnw⟩ := hng
        exact Or.inl ⟨by simpa using hnf, by omega⟩
      · exact Or.inr (by omega)
    · intro _; rfl

/-- Claim C3, counterexample.  The claim states that the proof-hash and
target output parameters are assigned on every path, including the
timestamp-violation rejection.  With `nTimeBlock = 5 < blockFromTime = 10`
the function returns with the output parameters still holding their entry
values 7 and 9, not the computed hash 42 or the computed target 0. -/
theorem CheckStakeKernelHash_outputs_cex :
    CheckStakeKernelHash hfConst42 pidxA 0 10 1 poA 5 7 9 false = (false, 7, 9) ∧
    hfConst42 (kernelHashInput pidxA.nStakeModifier 10 poA.hash poA.n 5) = 42 ∧
    weightedTarget 0 1 = 0 ∧ ((7 : Nat) ≠ 42 ∧ (9 : Nat) ≠ 0) := by
  refine ⟨by decide, rfl, by decide, by decide⟩

/-- Claim C3 (amended): on the timestamp-violation path
(`nTimeBlock < blockFromTime`) `CheckStakeKernelHash` rejects and leaves the
output parameters at their entry values; on every other path, acceptance and
rejection alike, it assigns the computed proof hash and weighted target to
the output parameters before returning. -/
theorem CheckStakeKernelHash_outputs_assigned (hf : List Nat → Nat)
    (pidx : CBlockIndex) (nBits bft v : Nat) (po : COutPoint)
    (ntb hIn tIn : Nat) (iss : Bool) :
    (ntb < bft →
      CheckStakeKernelHash hf pidx nBits bft v po ntb hIn tIn iss =
        (false, hIn, tIn)) ∧
    (bft ≤ ntb →
      (CheckStakeKernelHash hf pidx nBits bft v po ntb hIn tIn iss).2.1 =
        hf (kernelHashInput pidx.nStakeModifier bft po.hash po.n ntb) ∧
      (CheckStakeKernelHash hf pidx nBits bft v po ntb hIn tIn iss).2.2 =
        weightedTarget nBits v) := by
  constructor
  · intro h
    simp only [CheckStakeKernelHash, if_pos h]
  · intro h
    simp only [CheckStakeKernelHash, if_neg (by omega : ¬ ntb < bft)]
    split <;> exact ⟨rfl, rfl⟩

/-- Claim C3, witness: the amended theorem evaluated at concrete inputs on
both the timestamp-violation path and an assigning path. -/
theorem CheckStakeKernelHash_outputs_assigned_witness :
    CheckStakeKernelHash hfConst42 pidxA 0 10 1 poA 5 7 9 false = (false, 7, 9) ∧
    (CheckStakeKernelHash hfConst42 pidxA 0 10 1 poA 20 7 9 false).2.1 =
      hfConst42 (kernelHashInput pidxA.nStakeModifier 10 poA.hash poA.n 20) :=
  ⟨(CheckStakeKernelHash_outputs_assigned hfConst42 pidxA 0 10 1 poA 5 7 9 false).1
      (by decide),
   ((CheckStakeKernelHash_outputs_assigned hfConst42 pidxA 0 10 1 poA 20 7 9 false).2
      (by decide)).1⟩

/-- Claim C5, counterexample.  The weighted target lives in 256-bit wrapping
arithmetic, so doubling the stake can overflow and turn an accept into a
reject: with `nBits = 0x1F010000` (decompressing to 2^240), proof hash 1 and
stake 2^15 the call accepts (weighted target 2^255), but with the doubled
stake 2^16 the product wraps to 0 and the call rejects. -/
theorem CheckStakeKernelHash_weight_cex :
    (CheckStakeKernelHash hfConst1 pidxA 0x1F010000 0 32768 poA 0 0 0 false).1 = true ∧
    (CheckStakeKernelHash hfConst1 pidxA 0x1F010000 0 (2 * 32768) poA 0 0 0 false).1 = false := by
  refine ⟨by decide, by decide⟩

/-- Claim C5 (amended): the weighted target equals the decompressed
difficulty multiplied by the stake value reduced modulo 2^256, and as long
as the doubled product does not overflow 256 bits, acceptance is monotone in
the stake value: an accepting call still accepts with twice the stake. -/
theorem CheckStakeKernelHash_weight_monotone (hf : List Nat → Nat)
    (pidx : CBlockIndex) (nBits bft v : Nat) (po : COutPoint)
    (ntb hIn tIn : Nat) (iss : Bool) :
    (bft ≤ ntb →
      (CheckStakeKernelHash hf pidx nBits bft v po ntb hIn tIn iss).2.2 =
        (SetCompact nBits * v) % 2 ^ 256) ∧
    (SetCompact nBits * (2 * v) < 2 ^ 256 →
      (CheckStakeKernelHash hf pidx nBits bft v po ntb hIn tIn iss).1 = true →
      (CheckStakeKernelHash hf pidx nBits bft (2 * v) po ntb hIn tIn iss).1 = true) := by
  constructor
  · intro h
    simp only [CheckStakeKernelHash, if_neg (by omega : ¬ ntb < bft)]
    split <;> rfl
  · intro hov hacc
    by_cases h1 : ntb < bft
    · simp only [CheckStakeKernelHash, if_pos h1] at hacc
      exact absurd hacc (by simp)
    · have hmle : SetCompact nBits * v ≤ SetCompact nBits * (2 * v) :=
        Nat.mul_le_mul_left _ (by omega)
      have hmodv : weightedTarget nBits v = SetCompact nBits * v :=
        Nat.mod_eq_of_lt (by omega)
      have hmod2v : weightedTarget nBits (2 * v) = SetCompact nBits * (2 * v) :=
        Nat.mod_eq_of_lt hov
      simp only [CheckStakeKernelHash, if_neg h1] at hacc ⊢
      split at hacc
      · exact absurd hacc (by simp)
      · next hC =>
        split
        · next hC2 =>
          exfalso
          obtain ⟨hg, hlt⟩ := hC2
          rw [hmod2v] at hlt
          exact hC ⟨hg, by rw [hmodv]; omega⟩
        · rfl

/-- Claim C5, witness: the amended theorem evaluated at a concrete input
(target 1, stake 1, proof hash 0): the target equation holds and the
accepting call still accepts with the doubled stake. -/
theorem CheckStakeKernelHash_weight_monotone_witness :
    (CheckStakeKernelHash hfConst0 pidxA 0x03000001 0 1 poA 0 0 0 false).2.2 =
      (SetCompact 0x03000001 * 1) % 2 ^ 256 ∧
    (CheckStakeKernelHash hfConst0 pidxA 0x03000001 0 (2 * 1) poA 0 0 0 false).1 = true :=
  ⟨(CheckStakeKernelHash_weight_monotone hfConst0 pidxA 0x03000001 0 1 poA 0 0 0
      false).1 (by decide),
   (CheckStakeKernelHash_weight_monotone hfConst0 pidxA 0x03000001 0 1 poA 0 0 0
      false).2 (by decide) (by decide)⟩

/-! ## Claims about CheckKernel -/

/-- Claim C2: whenever the cached overload of CheckKernel returns true — in
particular on a cache hit, where a passing tentative check is confirmed by
re-running the cache-free path — the cache-free path on the same inputs also
returns true, so a stale cache entry can never produce a false positive. -/
theorem CheckKernel_cache_sound (env : PosEnv) (pidx : CBlockIndex)
    (nBits ntb : Nat) (po : COutPoint)
    (cache : List (COutPoint × CStakeCache)) :
    CheckKernelWithCache env pidx nBits ntb po cache = true →
    CheckKernel env pidx nBits ntb po = true := by
  intro h
  unfold CheckKernelWithCache at h
  cases hl : lookupStakeCoin env pidx po with
  | none => rw [hl] at h; cases h
  | some c =>
    rw [hl] at h
    dsimp only at h
    cases hlk : List.lookup po cache with
    | none =>
      rw [hlk] at h
      simp only [CheckKernel, hl]
      exact h
    | some stake =>
      rw [hlk] at h
      dsimp only at h
      by_cases hX :
        (CheckStakeKernelHash env.hashFn pidx nBits stake.blockFromTime
          stake.amount po ntb 0 0 (isSuperStakerScript env c.scriptPubKey)).1 = true
      · rwa [if_pos hX] at h
      · rw [if_neg hX] at h; cases h

/-- A coin used by the concrete CheckKernel evaluations: value 1, empty
script, confirmed at height 5, unspent. -/
def coinC : Coin := { nValue := 1, scriptPubKey := [], nHeight := 5, spent := false }

/-- The block index resolved as the coin's origin block (time 0). -/
def pidxOrigin : CBlockIndex := { nHeight := 5, nTime := 0, nStakeModifier := 0 }

/-- The tip block index used by the concrete CheckKernel evaluations. -/
def pidxTip : CBlockIndex := { nHeight := 10, nTime := 100, nStakeModifier := 7 }

/-- An environment in which the coin exists in the live view, is mature and
unspent, and every kernel check passes (the hash collaborator returns 0). -/
def envC : PosEnv :=
  { hashFn := hfConst0
    getCoin := fun _ => some coinC
    getSpentCoinFromMainChain := fun _ _ => none
    getAncestor := fun _ _ => some pidxOrigin
    superStakers := []
    coinbaseMaturity := 0 }

/-- Claim C2, witness: with a populated cache entry for the outpoint, the
cached overload returns true, and the theorem yields the cache-free result. -/
theorem CheckKernel_cache_sound_witness :
    CheckKernel envC pidxTip 0x03000001 0 poA = true :=
  CheckKernel_cache_sound envC pidxTip 0x03000001 0 poA
    [(poA, { blockFromTime := 0, amount := 1 })] (by rfl)

/-- Claim C10: when the outpoint is absent from the live UTXO view,
CheckKernel falls back to the historical spent-coin lookup on the main
chain; it fails only if that lookup also misses, and when the fallback
returns a coin, validation proceeds exactly as it would with that coin
present in the live view. -/
theorem CheckKernel_fallback (env : PosEnv) (pidx : CBlockIndex)
    (nBits ntb : Nat) (po : COutPoint)
    (cache : List (COutPoint × CStakeCache))
    (h1 : env.getCoin po = none) :
    (env.getSpentCoinFromMainChain pidx po = none →
      CheckKernelWithCache env pidx nBits ntb po cache = false) ∧
    (∀ c, env.getSpentCoinFromMainChain pidx po = some c →
      CheckKernelWithCache env pidx nBits ntb po cache =
        CheckKernelWithCache
          { env with getCoin := fun p => if p = po then some c else env.getCoin p }
          pidx nBits ntb po cache) := by
  constructor
  · intro h2
    have hl : lookupStakeCoin env pidx po = none := by
      simp [lookupStakeCoin, h1, h2]
    unfold CheckKernelWithCache
    rw [hl]
  · intro c hc
    have hl : lookupStakeCoin env pidx po = some c := by
      simp [lookupStakeCoin, h1, hc]
    have hl' :
        lookupStakeCoin
          { env with getCoin := fun p => if p = po then some c else env.getCoin p }
          pidx po = some c := by
      simp [lookupStakeCoin]
    have hck :
        CheckKernel env pidx nBits ntb po =
          CheckKernel
            { env with getCoin := fun p => if p = po then some c else env.getCoin p }
            pidx nBits ntb po := by
      unfold CheckKernel
      rw [hl, hl']
      rfl
    unfold CheckKernelWithCache
    rw [hl, hl', hck]
    rfl

/-- An environment in which the coin is absent both from the live view and
from the historical main-chain lookup. -/
def envN : PosEnv :=
  { hashFn := hfConst0
    getCoin := fun _ => none
    getSpentCoinFromMainChain := fun _ _ => none
    getAncestor := fun _ _ => none
    superStakers := []
    coinbaseMaturity := 0 }

/-- Claim C10, witness: with both lookups missing, CheckKernel fails. -/
theorem CheckKernel_fallback_witness :
    CheckKernelWithCache envN pidxTip 0 0 poA [] = false :=
  (CheckKernel_fallback envN pidxTip 0 0 poA [] (by rfl)).1 (by rfl)

/-! ## Claim about the script-cache eviction rule -/

/-- Claim C4: `NeedToEraseScriptFromCache` returns true exactly for entries
whose height lies strictly outside the window
`[nBlockHeight - nCacheScripts, nBlockHeight + nCacheScripts]`, or whose
stored hash differs from the active chain's block hash at that height; an
entry inside the window whose stored hash matches the active chain at its
height is kept. -/
theorem NeedToEraseScriptFromCache_iff (chainActive : Int → Option ChainBlock)
    (nBlockHeight nCacheScripts nScriptHeight : Int) (e : ScriptsElement) :
    NeedToEraseScriptFromCache chainActive nBlockHeight nCacheScripts
        nScriptHeight e = true ↔
      (nScriptHeight < nBlockHeight - nCacheScripts ∨
        nScriptHeight > nBlockHeight + nCacheScripts ∨
        ∃ b : ChainBlock, chainActive nScriptHeight = some b ∧ b.hash ≠ e.hash) := by
  unfold NeedToEraseScriptFromCache
  split_ifs with h1
  · simp only [true_iff]
    rcases h1 with h | h
    · exact Or.inl h
    · exact Or.inr (Or.inl h)
  · rw [not_or] at h1
    cases hca : chainActive nScriptHeight with
    | none =>
      dsimp only
      constructor
      · intro h; cases h
      · rintro (h | h | ⟨b, hb, -⟩)
        · exact absurd h h1.1
        · exact absurd h h1.2
        · cases hb
    | some b =>
      dsimp only
      split_ifs with h2
      · simp only [true_iff]
        exact Or.inr (Or.inr ⟨b, rfl, h2⟩)
      · constructor
        · intro h; cases h
        · rintro (h | h | ⟨b', hb', hne⟩)
          · exact absurd h h1.1
          · exact absurd h h1.2
          · cases hb'
            exact absurd hne h2

/-! ## Claim about ComputeStakeModifier -/

/-- The little-endian encoding always produces the requested number of
bytes. -/
theorem toBytesLE_length (n x : Nat) : (toBytesLE n x).length = n := by
  induction n generalizing x with
  | zero => rfl
  | succ n ih => simp [toBytesLE, ih]

/-- The fixed-width little-endian encoding is injective on values that fit
in the width. -/
theorem toBytesLE_inj (n x y : Nat) (hx : x < 2 ^ (8 * n))
    (hy : y < 2 ^ (8 * n)) (h : toBytesLE n x = toBytesLE n y) : x = y := by
  induction n generalizing x y with
  | zero =>
    simp only [Nat.mul_zero, Nat.pow_zero, Nat.lt_one_iff] at hx hy
    omega
  | succ n ih =>
    have hpow : (2 : Nat) ^ (8 * (n + 1)) = 2 ^ (8 * n) * 256 := by
      rw [Nat.mul_succ, Nat.pow_add]
    rw [hpow] at hx hy
    simp only [toBytesLE, List.cons.injEq] at h
    obtain ⟨hmod, htail⟩ := h
    have hdx : x / 256 < 2 ^ (8 * n) := by omega
    have hdy : y / 256 < 2 ^ (8 * n) := by omega
    have := ih (x / 256) (y / 256) hdx hdy htail
    omega

/-- Claim C8: `ComputeStakeModifier` is a pure total function: the absent
ancestor yields the all-zero value, a present ancestor yields the hash of
the serialization of the kernel hash followed by the ancestor's stored
modifier, and two calls differing only in the kernel hash feed different
inputs to the hash function. -/
theorem ComputeStakeModifier_spec (hf : List Nat → Nat) (p : CBlockIndex)
    (kernel k1 k2 m : Nat) :
    ComputeStakeModifier hf none kernel = 0 ∧
    ComputeStakeModifier hf (some p) kernel =
      hf (stakeModifierInput kernel p.nStakeModifier) ∧
    (k1 < 2 ^ 256 → k2 < 2 ^ 256 → k1 ≠ k2 →
      stakeModifierInput k1 m ≠ stakeModifierInput k2 m) := by
  refine ⟨rfl, rfl, ?_⟩
  intro h1 h2 hne h
  unfold stakeModifierInput serU256 at h
  have h256 : (8 : Nat) * 32 = 256 := by norm_num
  exact hne (toBytesLE_inj 32 k1 k2 (by rw [h256]; exact h1)
    (by rw [h256]; exact h2) (List.append_cancel_right h))

/-- Claim C8, witness: concrete distinct kernels 0 and 1 yield distinct hash
inputs, and the genesis case yields 0. -/
theorem ComputeStakeModifier_spec_witness :
    stakeModifierInput 0 7 ≠ stakeModifierInput 1 7 ∧
    ComputeStakeModifier hfConst0 none 3 = 0 :=
  ⟨(ComputeStakeModifier_spec hfConst0 pidxA 3 0 1 7).2.2 (by norm_num)
      (by norm_num) (by norm_num),
   (ComputeStakeModifier_spec hfConst0 pidxA 3 0 1 7).1⟩

/-! ## Claim about CheckBlockInputPubKeyMatchesOutputPubKey -/

/-- Claim C7: when the kernel input's coin is found and the coinstake has at
least two outputs, `CheckBlockInputPubKeyMatchesOutputPubKey` returns true
exactly when the coin's script equals the second output's script
byte-for-byte, or the input script extracts as pay-to-pubkey-hash and the
output script as pay-to-pubkey with the identical key identity. -/
theorem CheckBlockInputPubKeyMatchesOutputPubKey_iff (env : ScriptEnv)
    (block : BlockStakeView) (coinIn : Coin) (o0 o1 : CTxOut)
    (rest : List CTxOut)
    (hc : env.getCoin block.prevoutStake = some coinIn)
    (hv : block.coinstakeVout = o0 :: o1 :: rest) :
    CheckBlockInputPubKeyMatchesOutputPubKey env block = true ↔
      (coinIn.scriptPubKey = o1.scriptPubKey ∨
        ∃ k, env.extractDestination coinIn.scriptPubKey =
            some (CTxDestination.CKeyIDDest k, TxnOutType.TX_PUBKEYHASH) ∧
          env.extractDestination o1.scriptPubKey =
            some (CTxDestination.CKeyIDDest k, TxnOutType.TX_PUBKEY)) := by
  unfold CheckBlockInputPubKeyMatchesOutputPubKey
  rw [hc, hv]
  dsimp only
  split_ifs with heq
  · simp only [true_iff]
    exact Or.inl heq
  · cases hin : env.extractDestination coinIn.scriptPubKey with
    | none => simp [heq]
    | some p =>
      obtain ⟨inAddr, inType⟩ := p
      cases inType <;> cases inAddr <;> simp [heq]
      -- remaining case: input extracts as (TX_PUBKEYHASH, CKeyIDDest kIn)
      cases hout : env.extractDestination o1.scriptPubKey with
      | none => simp
      | some q =>
        obtain ⟨outAddr, outType⟩ := q
        cases outType <;> cases outAddr <;> simp [eq_comm]

/-- A script environment for the concrete pubkey-match evaluation: the coin
holds script `[1]` (extracting as P2PKH of key 9) and the second output
script `[2]` extracts as P2PK of the same key 9. -/
def envS : ScriptEnv :=
  { getCoin := fun _ => some { nValue := 1, scriptPubKey := [1], nHeight := 0, spent := false }
    extractDestination := fun s =>
      if s = [1] then some (CTxDestination.CKeyIDDest 9, TxnOutType.TX_PUBKEYHASH)
      else if s = [2] then some (CTxDestination.CKeyIDDest 9, TxnOutType.TX_PUBKEY)
      else none }

/-- The concrete block for the pubkey-match evaluation: two coinstake
outputs, the second paying to script `[2]`. -/
def blockS : BlockStakeView :=
  { prevoutStake := poA
    coinstakeVout := [{ nValue := 0, scriptPubKey := [] }, { nValue := 5, scriptPubKey := [2] }] }

/-- Claim C7, witness: the characterization applied at a concrete
environment, in the pay-to-pubkey-hash/pay-to-pubkey direction. -/
theorem CheckBlockInputPubKeyMatchesOutputPubKey_iff_witness :
    CheckBlockInputPubKeyMatchesOutputPubKey envS blockS = true :=
  (CheckBlockInputPubKeyMatchesOutputPubKey_iff envS blockS
      { nValue := 1, scriptPubKey := [1], nHeight := 0, spent := false }
      { nValue := 0, scriptPubKey := [] } { nValue := 5, scriptPubKey := [2] } []
      (by rfl) (by rfl)).mpr
    (Or.inr ⟨9, by decide, by decide⟩)

/-! ## Claims about CreateMPoSOutputs -/

/-- On success, the loop of GetMPoSOutputScripts resolves exactly its
iteration count of scripts, and the i-th resolved script comes from an
`AddMPoSScript` call at height `h - i`. -/
theorem mposLoop_success (env : MposEnv) :
    ∀ (n : Nat) (h : Int) (st : ScriptsMap) (ret : Bool) (l : List CScript)
      (st' : ScriptsMap),
      mposLoop env n h st = (ret, l, st') → ret = true →
        l.length = n ∧
        ∀ (i : Nat) (hi : i < l.length),
          ∃ st2, (AddMPoSScript env (h - i) st2).1 = some (l.get ⟨i, hi⟩) := by
  intro n
  induction n with
  | zero =>
    intro h st ret l st' heq _
    simp only [mposLoop, Prod.mk.injEq] at heq
    obtain ⟨-, hl, -⟩ := heq
    subst hl
    exact ⟨rfl, fun i hi => absurd hi (by simp)⟩
  | succ n ih =>
    intro h st ret l st' heq hret
    cases hA : AddMPoSScript env h st with
    | mk os st1 =>
      cases os with
      | none =>
        simp only [mposLoop, hA, Prod.mk.injEq] at heq
        obtain ⟨h1, -, -⟩ := heq
        rw [← h1] at hret
        cases hret
      | some s =>
        rcases hR : mposLoop env n (h - 1) st1 with ⟨r1, l1, s1⟩
        simp only [mposLoop, hA, hR, Prod.mk.injEq] at heq
        obtain ⟨h1, h2, -⟩ := heq
        subst h1
        subst h2
        obtain ⟨hlen, hall⟩ := ih (h - 1) st1 r1 l1 s1 hR hret
        constructor
        · simp [hlen]
        · intro i hi
          cases i with
          | zero =>
            refine ⟨st, ?_⟩
            rw [show h - ((0 : Nat) : Int) = h from by simp, hA]
            rfl
          | succ i =>
            have hi' : i < l1.length := by simpa using hi
            obtain ⟨st2, hst2⟩ := hall i hi'
            refine ⟨st2, ?_⟩
            rw [show h - ((i + 1 : Nat) : Int) = h - 1 - (i : Int) from by
              push_cast; ring]
            rw [hst2]
            rfl

/-- Claim C6: when `CreateMPoSOutputs` succeeds, it appends exactly
`nMPoSRewardRecipients - 1` outputs to the transaction, each carrying the
value `nRewardPiece`, and the i-th appended output's script is the recipient
resolved by `AddMPoSScript` at height
`nHeight - COINBASE_MATURITY - i` (descending heights). -/
theorem CreateMPoSOutputs_spec (env : MposEnv) (vout : List CTxOut)
    (nRewardPiece nHeight : Int) (st : ScriptsMap)
    (hret : (CreateMPoSOutputs env vout nRewardPiece nHeight st).1 = true) :
    (CreateMPoSOutputs env vout nRewardPiece nHeight st).2.1 =
      vout ++ (GetMPoSOutputScripts env nHeight st).2.1.map
        (fun s => { nValue := nRewardPiece, scriptPubKey := s }) ∧
    (GetMPoSOutputScripts env nHeight st).2.1.length =
      (env.nMPoSRewardRecipients - 1).toNat ∧
    ∀ (i : Nat) (hi : i < (GetMPoSOutputScripts env nHeight st).2.1.length),
      ∃ st2, (AddMPoSScript env (nHeight - env.coinbaseMaturity - i) st2).1 =
        some ((GetMPoSOutputScripts env nHeight st).2.1.get ⟨i, hi⟩) := by
  rcases hR : GetMPoSOutputScripts env nHeight st with ⟨r1, l1, s1⟩
  have hR' : mposLoop env (env.nMPoSRewardRecipients - 1).toNat
      (nHeight - env.coinbaseMaturity) st = (r1, l1, s1) := hR
  have hg : r1 = true := by
    by_contra hng
    rw [Bool.not_eq_true] at hng
    simp only [CreateMPoSOutputs, hR, hng] at hret
    simp at hret
  obtain ⟨hlen, hall⟩ := mposLoop_success env
    (env.nMPoSRewardRecipients - 1).toNat (nHeight - env.coinbaseMaturity)
    st r1 l1 s1 hR' hg
  subst hg
  refine ⟨?_, hlen, hall⟩
  simp only [CreateMPoSOutputs, hR]
  simp

/-- A consensus environment for the concrete MPoS evaluations: every height
has a proof-of-stake block with hash 1, the stake index resolves every
height to address 5, two reward recipients, maturity window 0. -/
def envM : MposEnv :=
  { chainActive := fun _ => some { hash := 1, isProofOfStake := true }
    readStakeIndex := fun _ => some 5
    mineBlocksOnDemand := false
    nMPoSRewardRecipients := 2
    coinbaseMaturity := 0 }

/-- Claim C6, witness: the theorem applied to a concrete successful call
appending one output of value 3. -/
theorem CreateMPoSOutputs_spec_witness :
    (CreateMPoSOutputs envM [] 3 10 []).2.1 =
      [] ++ (GetMPoSOutputScripts envM 10 []).2.1.map
        (fun s => { nValue := 3, scriptPubKey := s }) ∧
    (GetMPoSOutputScripts envM 10 []).2.1.length =
      (envM.nMPoSRewardRecipients - 1).toNat :=
  ⟨(CreateMPoSOutputs_spec envM [] 3 10 [] (by rfl)).1,
   (CreateMPoSOutputs_spec envM [] 3 10 [] (by rfl)).2.1⟩

/-- Claim C9: when recipient resolution fails, `CreateMPoSOutputs` returns
false and the transaction's output list is completely unchanged — no partial
subset of the resolved recipient outputs is appended. -/
theorem CreateMPoSOutputs_atomic_failure (env : MposEnv) (vout : List CTxOut)
    (nRewardPiece nHeight : Int) (st : ScriptsMap)
    (hret : (CreateMPoSOutputs env vout nRewardPiece nHeight st).1 = false) :
    (CreateMPoSOutputs env vout nRewardPiece nHeight st).2.1 = vout := by
  rcases hR : GetMPoSOutputScripts env nHeight st with ⟨r1, l1, s1⟩
  cases r1 with
  | true => simp [CreateMPoSOutputs, hR] at hret
  | false => simp [CreateMPoSOutputs, hR]

/-- A consensus environment in which the chain has a block only at height
10, so resolving the second recipient (height 9) fails after the first
(height 10) succeeded — the partial resolution must be discarded. -/
def envMFail : MposEnv :=
  { chainActive := fun h =>
      if h = 10 then some { hash := 1, isProofOfStake := true } else none
    readStakeIndex := fun _ => some 5
    mineBlocksOnDemand := false
    nMPoSRewardRecipients := 3
    coinbaseMaturity := 0 }

/-- Claim C9, witness: the failing call leaves the single pre-existing
output untouched even though one recipient had already been resolved. -/
theorem CreateMPoSOutputs_atomic_failure_witness :
    (CreateMPoSOutputs envMFail [{ nValue := 7, scriptPubKey := [] }] 3 10 []).2.1 =
      [{ nValue := 7, scriptPubKey := [] }] :=
  CreateMPoSOutputs_atomic_failure envMFail [{ nValue := 7, scriptPubKey := [] }]
    3 10 [] (by rfl)

end KpgPos
